import Mathlib

/-!
Verification development for the flag-battle arena simulation
(source: src/components/Game.tsx, src/App.tsx, src/types.ts).

The per-frame loop (Game.tsx lines 352-434), the boundary regeneration
effect (lines 286-323), the countdown effects (lines 325-350) and the
host-timer lifecycle are shallowly embedded below.  JS numbers are
modelled as real numbers; Math.hypot x y is Real.sqrt (x^2 + y^2);
Math.floor on the one constant expression 100 * 0.75 is exact natural
division.  React state cells (useState) become fields updated at the
end of a step; refs (useRef) are fields updated in place.
-/

namespace FlagBattle

/-- Game status enumeration from src/types.ts. -/
inductive GameStatus where
  | STARTING
  | PLAYING
  | FINISHED
deriving DecidableEq, Repr

/-- Arena constants from Game.tsx lines 68-74. -/
def CANVAS_SIZE : ℕ := 800

noncomputable def CENTER_X : ℝ := (CANVAS_SIZE : ℝ) / 2

noncomputable def CENTER_Y : ℝ := (CANVAS_SIZE : ℝ) / 2 + 60

def CIRCLE_RADIUS : ℝ := 160

def SEGMENT_COUNT : ℕ := 100

/-- Rotation step per tick, Game.tsx line 74. -/
noncomputable def omega : ℝ := 0.015

/-- Gap start slot: Math.floor(SEGMENT_COUNT * 0.75), Game.tsx lines 294 and 364.
With SEGMENT_COUNT = 100 the product is the integer 75, so natural
division embeds the floor exactly. -/
def VIRTUAL_GAP_START : ℕ := SEGMENT_COUNT * 75 / 100

/-- The slot indices for which a boundary segment body is created:
the loop of Game.tsx lines 296-319 iterates i over 0..SEGMENT_COUNT-1 and
skips i when VIRTUAL_GAP_START ≤ i < VIRTUAL_GAP_START + gapSize (line 297). -/
def boundarySlots (gapSize : ℕ) : List ℕ :=
  (List.range SEGMENT_COUNT).filter
    (fun i => decide (¬ (VIRTUAL_GAP_START ≤ i ∧ i < VIRTUAL_GAP_START + gapSize)))

/-- World placement of one boundary segment: position and angle. -/
structure Segment where
  x : ℝ
  y : ℝ
  angle : ℝ

/-- World position and angle assigned to slot index i at ring rotation rot,
shared formula of the regeneration effect (Game.tsx lines 299-313) and the
per-tick repositioning (lines 371-384). -/
noncomputable def segmentAt (rot : ℝ) (i : ℕ) : Segment :=
  let t : ℝ := (i : ℝ) / (SEGMENT_COUNT : ℝ)
  let theta : ℝ := t * Real.pi * 2
  let x : ℝ := Real.cos theta * CIRCLE_RADIUS
  let y : ℝ := Real.sin theta * CIRCLE_RADIUS
  let angle : ℝ := theta + Real.pi / 2
  { x := CENTER_X + x * Real.cos rot - y * Real.sin rot
    y := CENTER_Y + x * Real.sin rot + y * Real.cos rot
    angle := angle + rot }

/-- Full boundary regeneration at rotation rot (Game.tsx lines 296-319). -/
noncomputable def generateBoundary (gapSize : ℕ) (rot : ℝ) : List Segment :=
  (boundarySlots gapSize).map (segmentAt rot)

/-- Logical slot index of the part stored at array index i
(Game.tsx lines 366-369): indices at or past the gap start are shifted
by the gap size. -/
def adjustedIndex (gapSize i : ℕ) : ℕ :=
  if VIRTUAL_GAP_START ≤ i then i + gapSize else i

/-- Per-tick repositioning of the existing parts array (Game.tsx lines
363-385): each of the n parts is written the placement of its adjusted
slot index at the current rotation.  The new placement does not depend
on the old one, only on the array index. -/
noncomputable def repositionBoundary (gapSize : ℕ) (rot : ℝ) (numParts : ℕ) : List Segment :=
  (List.range numParts).map (fun i => segmentAt rot (adjustedIndex gapSize i))

/-- Visual themes from src/types.ts. -/
inductive VisualTheme where
  | SPACE
  | NIGHT
  | DESERT
  | ARCTIC
deriving DecidableEq, Repr

/-- Per-theme elimination color hint (themeAssets, Game.tsx lines 76-81). -/
def eliminationColor : VisualTheme → String
  | .SPACE => "#ef4444"
  | .NIGHT => "#ec4899"
  | .DESERT => "#b91c1c"
  | .ARCTIC => "#1e3a8a"

/-- One token: physics body id, its entrant (country code from the
id-to-country map), and the body state the loop reads and writes. -/
structure Flag where
  id : ℕ
  code : String
  x : ℝ
  y : ℝ
  vx : ℝ
  vy : ℝ

/-- Math.hypot of the offset from the arena center (Game.tsx line 400). -/
noncomputable def distFromCenter (f : Flag) : ℝ :=
  Real.sqrt ((f.x - CENTER_X) ^ 2 + (f.y - CENTER_Y) ^ 2)

/-- The elimination threshold test of Game.tsx line 401:
distFromCenter > 480 or position.y > 950. -/
def outOfBounds (f : Flag) : Prop :=
  480 < distFromCenter f ∨ 950 < f.y

/-- Events emitted through the callback props of the Game component. -/
inductive Event where
  | eliminated (code : String) (x y : ℝ) (color : String)
  | winnerDetected (code : String)
  | gameEndScheduled (code : String)
  | statusChange (s : GameStatus)
  | countdownTick (n : ℤ)

/-- The entrant code of an elimination event, if it is one. -/
def Event.elimCode : Event → Option String
  | .eliminated c _ _ _ => some c
  | _ => none

/-- Recognizer for WinnerDetected events. -/
def Event.isWinnerDetected : Event → Bool
  | .winnerDetected _ => true
  | _ => false

/-- Recognizer for the two finalization events (WinnerDetected and the
scheduling of the delayed GameEnded). -/
def Event.isFinalization : Event → Bool
  | .winnerDetected _ => true
  | .gameEndScheduled _ => true
  | _ => false

/-- Number of Eliminated events in a trace that carry a given entrant. -/
def elimCountFor (code : String) (evs : List Event) : ℕ :=
  (evs.filterMap Event.elimCode).count code

/-- Host-runtime timeouts created by the component.  The countdown effect
stores its timeout handle and clears it in its cleanup (Game.tsx lines
329 and 343); the delayed game-end timeout discards its handle
(line 427) and no clearTimeout for it exists anywhere in the sources. -/
inductive HostTimer where
  | countdownTimer
  | gameEndTimer (code : String)
deriving DecidableEq

/-- Whether a pending timeout is cleared when the component unmounts
(cleanup functions at Game.tsx lines 272-277, 343 and 433): only the
stored countdown handle is. -/
def HostTimer.clearedOnTeardown : HostTimer → Bool
  | countdownTimer => true
  | gameEndTimer _ => false

/-- Pending host timeouts that survive unmount and restart. -/
def teardownTimers (ts : List HostTimer) : List HostTimer :=
  ts.filter (fun t => ! t.clearedOnTeardown)

/-- Props of the loop effect that the tick closure reads
(Game.tsx lines 352-434 dependency list). -/
structure Config where
  paused : Bool
  status : GameStatus
  targetWinnerId : Option String
  theme : VisualTheme

/-- Mutable simulation state touched by one tick of the loop: the live
tokens of the physics world (with their entrant mapping), the has-ended
ref, the latched victory body id, the rotation ref, the frame counter,
and the pending host timeouts. -/
structure LoopState where
  alive : List Flag
  hasEnded : Bool
  victoryFlagId : Option ℕ
  rotation : ℝ
  frameCount : ℕ
  hostTimers : List HostTimer

/-- The rescue write of Game.tsx lines 405-406: position set to the
arena center, velocity zeroed; the body stays in the world. -/
noncomputable def rescueFlag (f : Flag) : Flag :=
  { f with x := CENTER_X, y := CENTER_Y, vx := 0, vy := 0 }

open Classical in
/-- Body of the per-flag forEach (Game.tsx lines 399-415), given the
length of the activeFlags snapshot taken before any removal: returns the
flag as it remains in the world (none if removed) and the events emitted
for it. -/
noncomputable def processFlag (target : Option String) (theme : VisualTheme)
    (snapshotCount : ℕ) (f : Flag) : Option Flag × List Event :=
  if outOfBounds f then
    if target = some f.code ∧ 1 < snapshotCount then
      (some (rescueFlag f), [])
    else
      (none, [Event.eliminated f.code f.x f.y (eliminationColor theme)])
  else
    (some f, [])

/-- The forEach over the snapshot: each flag is tested against its own
position only, so removals and rescues of other flags never perturb the
test (the snapshot list and its length are fixed before the loop). -/
noncomputable def processFlags (target : Option String) (theme : VisualTheme)
    (snapshotCount : ℕ) : List Flag → List Flag × List Event
  | [] => ([], [])
  | f :: fs =>
    let r := processFlag target theme snapshotCount f
    let rest := processFlags target theme snapshotCount fs
    (match r.1 with
     | some f2 => f2 :: rest.1
     | none => rest.1,
     r.2 ++ rest.2)

/-- One invocation of the afterUpdate handler (Game.tsx lines 354-431):
skip when paused; bump the frame counter; skip unless status is PLAYING;
skip the whole mutation block once a victory flag is latched; otherwise
advance the rotation, snapshot the active flags, run the elimination
pass, and finally run the winner check against the snapshot length.
The ActiveRanking emission of lines 390-397 reads state but mutates
nothing and is not modelled.  Body.setStatic on the winner (line 422)
is likewise not modelled; setVictoryFlagId is modelled as taking effect
on the next tick state. -/
noncomputable def loopTick (cfg : Config) (s : LoopState) : LoopState × List Event :=
  if cfg.paused then (s, [])
  else
    let s1 : LoopState := { s with frameCount := s.frameCount + 1 }
    if cfg.status ≠ GameStatus.PLAYING then (s1, [])
    else if s1.victoryFlagId ≠ none then (s1, [])
    else
      let s2 : LoopState := { s1 with rotation := s1.rotation + omega }
      let activeFlags := s2.alive
      let pr := processFlags cfg.targetWinnerId cfg.theme activeFlags.length activeFlags
      let s3 : LoopState := { s2 with alive := pr.1 }
      if activeFlags.length = 1 ∧ s3.hasEnded = false then
        match activeFlags with
        | [w] =>
          ({ s3 with
              hasEnded := true
              victoryFlagId := some w.id
              hostTimers := s3.hostTimers ++ [HostTimer.gameEndTimer w.code] },
           pr.2 ++ [Event.winnerDetected w.code, Event.gameEndScheduled w.code])
        | _ => (s3, pr.2)
      else
        (s3, pr.2)

/-- Iterated ticks, one Config (prop snapshot) per tick, concatenating
the emitted events in order. -/
noncomputable def runTicks : List Config → LoopState → LoopState × List Event
  | [], s => (s, [])
  | cfg :: rest, s =>
    let r := loopTick cfg s
    let r2 := runTicks rest r.1
    (r2.1, r.2 ++ r2.2)

/-- State of the countdown controller: the countdown useState cell
(Game.tsx line 56) and the match status owned by the parent. -/
structure CountdownState where
  countdown : Option ℤ
  status : GameStatus
deriving DecidableEq

/-- The mount of the Game component, as far as the countdown is
concerned.  The first commit renders with countdown = null (useState
initial value, line 56); the setup effect then calls setCountdown(3)
(line 160), visible only from the next render; the immediate-tick
effect (lines 346-350) has an empty dependency list, so it runs exactly
once, during this first commit, reading the rendered value. -/
def countdownMount (status : GameStatus) : CountdownState × List Event :=
  let rendered : Option ℤ := none
  let evts :=
    if rendered = some 3 ∧ status = GameStatus.STARTING then
      [Event.countdownTick 3]
    else
      []
  ({ countdown := some 3, status := status }, evts)

/-- One expiry of the countdown timeout (Game.tsx lines 325-344).  The
effect arms no timer while paused, while countdown is null, or while
status is not STARTING (line 326); otherwise after the interval it
decrements: a negative result switches status to PLAYING and emits
tick 0, else it emits the decremented value and stores it. -/
def countdownStep (paused : Bool) (s : CountdownState) : CountdownState × List Event :=
  if paused ∨ s.countdown = none ∨ s.status ≠ GameStatus.STARTING then
    (s, [])
  else
    match s.countdown with
    | none => (s, [])
    | some c =>
      let next : ℤ := c - 1
      if next < 0 then
        ({ countdown := none, status := GameStatus.PLAYING },
         [Event.statusChange GameStatus.PLAYING, Event.countdownTick 0])
      else
        ({ s with countdown := some next }, [Event.countdownTick next])

/-- Iterated unpaused timer expiries. -/
def countdownSteps (paused : Bool) : ℕ → CountdownState → CountdownState × List Event
  | 0, s => (s, [])
  | n + 1, s =>
    let r := countdownStep paused s
    let r2 := countdownSteps paused n r.1
    (r2.1, r.2 ++ r2.2)

/-- The full countdown trace of a fresh unpaused match: mount in status
STARTING, then n timer expiries. -/
def countdownRun (n : ℕ) : CountdownState × List Event :=
  let m := countdownMount GameStatus.STARTING
  let r := countdownSteps false n m.1
  (r.1, m.2 ++ r.2)

/-- Sample token past the fall-through threshold (y = 1000 > 950). -/
def flagOutA : Flag :=
  { id := 1, code := "AA", x := 400, y := 1000, vx := 0, vy := 0 }

/-- Second sample token past the fall-through threshold. -/
def flagOutB : Flag :=
  { id := 2, code := "BB", x := 400, y := 1000, vx := 0, vy := 0 }

/-- Sample token resting at the arena center. -/
def flagCenterB : Flag :=
  { id := 2, code := "BB", x := 400, y := 460, vx := 0, vy := 0 }

/-- Sample token at the arena center used as a sole survivor. -/
def flagCenterW : Flag :=
  { id := 3, code := "WW", x := 400, y := 460, vx := 0, vy := 0 }

/-- Unpaused playing configuration with no rigged winner. -/
def cfgPlaying : Config :=
  { paused := false, status := GameStatus.PLAYING, targetWinnerId := none,
    theme := VisualTheme.SPACE }

/-- Unpaused playing configuration rigging entrant AA. -/
def cfgPlayingTargetAA : Config :=
  { cfgPlaying with targetWinnerId := some "AA" }

/-- State with two live tokens, both past the threshold. -/
def stTwoOut : LoopState :=
  { alive := [flagOutA, flagOutB], hasEnded := false, victoryFlagId := none,
    rotation := 0, frameCount := 0, hostTimers := [] }

/-- State with one token past the threshold and one at the center. -/
def stPair : LoopState :=
  { stTwoOut with alive := [flagOutA, flagCenterB] }

/-- State with a single centered token. -/
def stSolo : LoopState :=
  { stTwoOut with alive := [flagCenterW] }

lemma VIRTUAL_GAP_START_eq : VIRTUAL_GAP_START = 75 := by
  decide

/-- Filtering a contiguous run of naturals by a lower bound shifted g past
its start drops exactly the first g elements. -/
lemma filter_range'_ge (a n g : ℕ) :
    (List.range' a n).filter (fun i => decide (a + g ≤ i))
      = List.range' (a + g) (n - g) := by
  induction n generalizing a g with
  | zero => simp
  | succ n ih =>
    rw [List.range'_succ]
    cases g with
    | zero =>
      simp only [Nat.add_zero, Nat.sub_zero]
      rw [← List.range'_succ]
      apply List.filter_eq_self.mpr
      intro x hx
      have := List.mem_range'_1.mp hx
      simp
      omega
    | succ g =>
      have hhead : ¬ (a + (g + 1) ≤ a) := by omega
      rw [List.filter_cons_of_neg (by simp [hhead])]
      have : (fun i => decide (a + (g + 1) ≤ i)) = (fun i => decide ((a + 1) + g ≤ i)) := by
        funext i
        simp
        omega
      rw [this, ih (a + 1) g]
      congr 1 <;> omega

/-- The retained slots split as the prefix below the gap start followed by
the slots from gap start + gap size up to SEGMENT_COUNT (empty once the
gap size reaches 25). -/
lemma boundarySlots_eq (g : ℕ) :
    boundarySlots g = List.range 75 ++ List.range' (75 + g) (25 - g) := by
  have hsplit : List.range SEGMENT_COUNT = List.range 75 ++ List.range' 75 25 := by
    decide
  rw [boundarySlots, hsplit, List.filter_append]
  have h1 : (List.range 75).filter
      (fun i => decide (¬ (VIRTUAL_GAP_START ≤ i ∧ i < VIRTUAL_GAP_START + g)))
      = List.range 75 := by
    apply List.filter_eq_self.mpr
    intro a ha
    have : a < 75 := List.mem_range.mp ha
    simp [VIRTUAL_GAP_START_eq]
    omega
  have h2 : (List.range' 75 25).filter
      (fun i => decide (¬ (VIRTUAL_GAP_START ≤ i ∧ i < VIRTUAL_GAP_START + g)))
      = List.range' (75 + g) (25 - g) := by
    have hcongr : (List.range' 75 25).filter
        (fun i => decide (¬ (VIRTUAL_GAP_START ≤ i ∧ i < VIRTUAL_GAP_START + g)))
        = (List.range' 75 25).filter (fun i => decide (75 + g ≤ i)) := by
      apply List.filter_congr
      intro a ha
      have := List.mem_range'_1.mp ha
      simp [VIRTUAL_GAP_START_eq]
      omega
    rw [hcongr]
    exact filter_range'_ge 75 25 g
  rw [h1, h2]

lemma boundarySlots_length (g : ℕ) :
    (boundarySlots g).length = 75 + (25 - g) := by
  rw [boundarySlots_eq]
  simp

lemma mem_boundarySlots (g i : ℕ) :
    i ∈ boundarySlots g ↔
      i < SEGMENT_COUNT ∧ ¬ (VIRTUAL_GAP_START ≤ i ∧ i < VIRTUAL_GAP_START + g) := by
  rw [boundarySlots]
  simp only [List.mem_filter, List.mem_range, decide_eq_true_eq]

lemma map_adjustedIndex_range (g : ℕ) :
    (List.range (boundarySlots g).length).map (adjustedIndex g) = boundarySlots g := by
  have h1 : ∀ i ∈ List.range' 0 75, adjustedIndex g i = i := by
    intro i hi
    have := List.mem_range'_1.mp hi
    rw [adjustedIndex, if_neg]
    rw [VIRTUAL_GAP_START_eq]
    omega
  have h2 : ∀ i ∈ List.range' 75 (25 - g), adjustedIndex g i = g + i := by
    intro i hi
    have := List.mem_range'_1.mp hi
    rw [adjustedIndex, if_pos]
    · omega
    · rw [VIRTUAL_GAP_START_eq]
      omega
  have hsplit : List.range' 0 (75 + (25 - g)) = List.range' 0 75 ++ List.range' 75 (25 - g) := by
    have h := List.range'_append 0 75 (25 - g) 1
    rw [Nat.add_comm (25 - g) 75] at h
    simpa using h.symm
  have hcomm : g + 75 = 75 + g := by omega
  rw [boundarySlots_length, List.range_eq_range', hsplit, List.map_append,
    List.map_congr_left h1, List.map_id', List.map_congr_left h2, List.map_add_range',
    boundarySlots_eq, ← List.range_eq_range', hcomm]

/-- C7: for every gap size and rotation, per-tick repositioning of the
existing parts array assigns each part exactly the placement that a full
regeneration at the same rotation would give the same logical slot: the
two computations produce identical segment lists. -/
theorem reposition_matches_regeneration (g : ℕ) (rot rot0 : ℝ) :
    repositionBoundary g rot (generateBoundary g rot0).length = generateBoundary g rot := by
  rw [repositionBoundary, generateBoundary, generateBoundary, List.length_map]
  calc (List.range (boundarySlots g).length).map (fun i => segmentAt rot (adjustedIndex g i))
      = ((List.range (boundarySlots g).length).map (adjustedIndex g)).map (segmentAt rot) := by
        rw [List.map_map]
        rfl
    _ = (boundarySlots g).map (segmentAt rot) := by rw [map_adjustedIndex_range]

/-- C4 (amended): for every gap size g up to SEGMENT_COUNT minus the gap
start slot (that bound is 25), the generated boundary contains exactly
SEGMENT_COUNT minus g segments, and the omitted slot indices are exactly
the contiguous run of length g starting at floor(SEGMENT_COUNT * 0.75). -/
theorem gap_boundary_count (g : ℕ) (hg : g ≤ SEGMENT_COUNT - VIRTUAL_GAP_START) (rot : ℝ) :
    (generateBoundary g rot).length = SEGMENT_COUNT - g ∧
    ∀ i, i < SEGMENT_COUNT →
      (i ∉ boundarySlots g ↔ i ∈ List.range' VIRTUAL_GAP_START g) := by
  have hg' : g ≤ 25 := by
    have h : SEGMENT_COUNT - VIRTUAL_GAP_START = 25 := by decide
    omega
  constructor
  · rw [generateBoundary, List.length_map, boundarySlots_length]
    have h : SEGMENT_COUNT = 100 := by decide
    omega
  · intro i hi
    rw [mem_boundarySlots, List.mem_range'_1]
    rw [VIRTUAL_GAP_START_eq]
    constructor
    · intro h
      by_contra hc
      exact h ⟨hi, by omega⟩
    · intro h hc
      omega

/-- Witness for C4 at the default gap size 8 of App.tsx. -/
theorem gap_boundary_count_witness :
    8 ≤ SEGMENT_COUNT - VIRTUAL_GAP_START ∧ (generateBoundary 8 0).length = SEGMENT_COUNT - 8 :=
  ⟨by decide, (gap_boundary_count 8 (by decide) 0).1⟩

/-- Counterexample to C4 as stated: the claim demands SEGMENT_COUNT - g
segments for every g below SEGMENT_COUNT, but at g = 26 the gap window
overflows the slot range and only 25 slots are omitted, leaving 75
segments instead of 74. -/
theorem gap_boundary_count_cex :
    26 < SEGMENT_COUNT ∧ (generateBoundary 26 0).length ≠ SEGMENT_COUNT - 26 := by
  constructor
  · decide
  · rw [generateBoundary, List.length_map]
    decide

/-- C5 (amended): when the gap size reaches or exceeds the 25 slots
between the gap start and SEGMENT_COUNT, the gap saturates: the boundary
still contains the 75 segments at the slots below the gap start, and
generation degrades gracefully rather than failing.  The ring is never
fully open. -/
theorem gap_oversized_boundary (g : ℕ) (hg : SEGMENT_COUNT - VIRTUAL_GAP_START ≤ g) (rot : ℝ) :
    boundarySlots g = List.range VIRTUAL_GAP_START ∧
    (generateBoundary g rot).length = VIRTUAL_GAP_START := by
  have hg' : 25 ≤ g := by
    have h : SEGMENT_COUNT - VIRTUAL_GAP_START = 25 := by decide
    omega
  have hslots : boundarySlots g = List.range 75 := by
    rw [boundarySlots_eq]
    have h0 : 25 - g = 0 := by omega
    rw [h0]
    simp
  refine ⟨by rw [hslots, VIRTUAL_GAP_START_eq], ?_⟩
  rw [generateBoundary, List.length_map, hslots, List.length_range, VIRTUAL_GAP_START_eq]

/-- Witness for C5 at gap size 100. -/
theorem gap_oversized_boundary_witness :
    SEGMENT_COUNT - VIRTUAL_GAP_START ≤ 100 ∧ (generateBoundary 100 0).length = VIRTUAL_GAP_START :=
  ⟨by decide, (gap_oversized_boundary 100 (by decide) 0).2⟩

/-- Counterexample to C5 as stated: at gap size 100 (equal to
SEGMENT_COUNT) the claim demands zero segments, but the loop only skips
indices inside the window starting at slot 75, so the 75 segments below
the gap start are still created. -/
theorem gap_oversized_boundary_cex :
    SEGMENT_COUNT ≤ 100 ∧ (generateBoundary 100 0).length ≠ 0 := by
  constructor
  · decide
  · rw [generateBoundary, List.length_map]
    decide

lemma rescueFlag_code (f : Flag) : (rescueFlag f).code = f.code := rfl

lemma rescueFlag_id (f : Flag) : (rescueFlag f).id = f.id := rfl

lemma processFlag_not_out (target : Option String) (theme : VisualTheme) (n : ℕ)
    (f : Flag) (h : ¬ outOfBounds f) :
    processFlag target theme n f = (some f, []) := by
  rw [processFlag, if_neg h]

lemma processFlag_rescue (target : Option String) (theme : VisualTheme) (n : ℕ)
    (f : Flag) (h : outOfBounds f) (ht : target = some f.code) (hn : 1 < n) :
    processFlag target theme n f = (some (rescueFlag f), []) := by
  rw [processFlag, if_pos h, if_pos ⟨ht, hn⟩]

lemma processFlag_elim (target : Option String) (theme : VisualTheme) (n : ℕ)
    (f : Flag) (h : outOfBounds f) (hc : ¬ (target = some f.code ∧ 1 < n)) :
    processFlag target theme n f
      = (none, [Event.eliminated f.code f.x f.y (eliminationColor theme)]) := by
  rw [processFlag, if_pos h, if_neg hc]

lemma processFlag_snd_cases (target : Option String) (theme : VisualTheme) (n : ℕ)
    (f : Flag) (e : Event) (he : e ∈ (processFlag target theme n f).2) :
    e = Event.eliminated f.code f.x f.y (eliminationColor theme)
      ∧ outOfBounds f ∧ ¬ (target = some f.code ∧ 1 < n) := by
  rw [processFlag] at he
  split at he
  · split at he
    · simp at he
    · next hout hc =>
      simp at he
      exact ⟨he, hout, hc⟩
  · simp at he

lemma processFlag_fst_cases (target : Option String) (theme : VisualTheme) (n : ℕ)
    (f g : Flag) (h : (processFlag target theme n f).1 = some g) :
    (¬ outOfBounds f ∧ g = f)
      ∨ (outOfBounds f ∧ target = some f.code ∧ 1 < n ∧ g = rescueFlag f) := by
  rw [processFlag] at h
  split at h
  · split at h
    · next hout hc =>
      simp at h
      exact Or.inr ⟨hout, hc.1, hc.2, h.symm⟩
    · simp at h
  · next hout =>
    simp at h
    exact Or.inl ⟨hout, h.symm⟩

lemma processFlags_nil (target : Option String) (theme : VisualTheme) (n : ℕ) :
    processFlags target theme n [] = ([], []) := rfl

lemma processFlags_cons (target : Option String) (theme : VisualTheme) (n : ℕ)
    (f : Flag) (fs : List Flag) :
    processFlags target theme n (f :: fs)
      = (match (processFlag target theme n f).1 with
         | some f2 => f2 :: (processFlags target theme n fs).1
         | none => (processFlags target theme n fs).1,
         (processFlag target theme n f).2 ++ (processFlags target theme n fs).2) := rfl

lemma mem_processFlags_snd (target : Option String) (theme : VisualTheme) (n : ℕ) :
    ∀ (fs : List Flag) (e : Event), e ∈ (processFlags target theme n fs).2 →
      ∃ f ∈ fs, e ∈ (processFlag target theme n f).2 := by
  intro fs
  induction fs with
  | nil =>
    intro e he
    simp [processFlags_nil] at he
  | cons f fs ih =>
    intro e he
    rw [processFlags_cons] at he
    simp only [List.mem_append] at he
    rcases he with h | h
    · exact ⟨f, List.mem_cons_self f fs, h⟩
    · obtain ⟨g, hg, hge⟩ := ih e h
      exact ⟨g, List.mem_cons_of_mem f hg, hge⟩

lemma processFlags_snd_mem (target : Option String) (theme : VisualTheme) (n : ℕ) :
    ∀ (fs : List Flag) (f : Flag) (e : Event), f ∈ fs →
      e ∈ (processFlag target theme n f).2 → e ∈ (processFlags target theme n fs).2 := by
  intro fs
  induction fs with
  | nil =>
    intro f e hf
    simp at hf
  | cons g fs ih =>
    intro f e hf he
    rw [processFlags_cons]
    simp only [List.mem_append]
    rcases List.mem_cons.mp hf with h | h
    · subst h
      exact Or.inl he
    · exact Or.inr (ih f e h he)

lemma mem_processFlags_fst (target : Option String) (theme : VisualTheme) (n : ℕ) :
    ∀ (fs : List Flag) (g : Flag), g ∈ (processFlags target theme n fs).1 →
      ∃ f ∈ fs, (processFlag target theme n f).1 = some g := by
  intro fs
  induction fs with
  | nil =>
    intro g hg
    simp [processFlags_nil] at hg
  | cons f fs ih =>
    intro g hg
    rw [processFlags_cons] at hg
    rcases hfst : (processFlag target theme n f).1 with _ | f2
    · rw [hfst] at hg
      simp only at hg
      obtain ⟨h, hh, hhe⟩ := ih g hg
      exact ⟨h, List.mem_cons_of_mem f hh, hhe⟩
    · rw [hfst] at hg
      simp only [List.mem_cons] at hg
      rcases hg with h | h
      · exact ⟨f, List.mem_cons_self f fs, by rw [hfst, h]⟩
      · obtain ⟨k, hk, hke⟩ := ih g h
        exact ⟨k, List.mem_cons_of_mem f hk, hke⟩

lemma processFlags_fst_mem (target : Option String) (theme : VisualTheme) (n : ℕ) :
    ∀ (fs : List Flag) (f g : Flag), f ∈ fs →
      (processFlag target theme n f).1 = some g →
      g ∈ (processFlags target theme n fs).1 := by
  intro fs
  induction fs with
  | nil =>
    intro f g hf
    simp at hf
  | cons k fs ih =>
    intro f g hf hg
    rw [processFlags_cons]
    rcases List.mem_cons.mp hf with h | h
    · subst h
      rw [hg]
      exact List.mem_cons_self g _
    · rcases hfst : (processFlag target theme n k).1 with _ | k2
      · show g ∈ (processFlags target theme n fs).1
        exact ih f g h hg
      · show g ∈ k2 :: (processFlags target theme n fs).1
        exact List.mem_cons_of_mem k2 (ih f g h hg)

lemma elimCountFor_append (code : String) (a b : List Event) :
    elimCountFor code (a ++ b) = elimCountFor code a + elimCountFor code b := by
  rw [elimCountFor, elimCountFor, elimCountFor, List.filterMap_append, List.count_append]

lemma elimCountFor_processFlag_ne (target : Option String) (theme : VisualTheme) (n : ℕ)
    (g : Flag) (code : String) (hne : g.code ≠ code) :
    elimCountFor code (processFlag target theme n g).2 = 0 := by
  rw [elimCountFor, List.count_eq_zero]
  intro hmem
  rw [List.mem_filterMap] at hmem
  obtain ⟨e, he, hcode⟩ := hmem
  obtain ⟨heq, _, _⟩ := processFlag_snd_cases target theme n g e he
  subst heq
  simp [Event.elimCode] at hcode
  exact hne hcode

lemma elimCountFor_processFlag_elim (target : Option String) (theme : VisualTheme) (n : ℕ)
    (f : Flag) (hout : outOfBounds f) (hc : ¬ (target = some f.code ∧ 1 < n)) :
    elimCountFor f.code (processFlag target theme n f).2 = 1 := by
  rw [processFlag_elim target theme n f hout hc]
  simp [elimCountFor, Event.elimCode]

lemma elimCountFor_processFlag_kept (target : Option String) (theme : VisualTheme) (n : ℕ)
    (f : Flag) (h : ¬ outOfBounds f ∨ (target = some f.code ∧ 1 < n)) :
    elimCountFor f.code (processFlag target theme n f).2 = 0 := by
  rcases h with h | h
  · rw [processFlag_not_out target theme n f h]
    rfl
  · rcases Classical.em (outOfBounds f) with hout | hout
    · rw [processFlag_rescue target theme n f hout h.1 h.2]
      rfl
    · rw [processFlag_not_out target theme n f hout]
      rfl

lemma elimCount_zero_of_codes (target : Option String) (theme : VisualTheme) (n : ℕ) :
    ∀ (fs : List Flag) (code : String), (∀ h ∈ fs, h.code ≠ code) →
      elimCountFor code (processFlags target theme n fs).2 = 0 := by
  intro fs
  induction fs with
  | nil =>
    intro code h
    rfl
  | cons f fs ih =>
    intro code h
    rw [processFlags_cons]
    show elimCountFor code ((processFlag target theme n f).2
      ++ (processFlags target theme n fs).2) = 0
    rw [elimCountFor_append,
      elimCountFor_processFlag_ne target theme n f code (h f (List.mem_cons_self f fs)),
      ih code (fun g hg => h g (List.mem_cons_of_mem f hg))]

lemma elimCount_one_of_elim (target : Option String) (theme : VisualTheme) (n : ℕ) :
    ∀ (fs : List Flag) (f : Flag), f ∈ fs → (fs.map Flag.code).Nodup →
      outOfBounds f → ¬ (target = some f.code ∧ 1 < n) →
      elimCountFor f.code (processFlags target theme n fs).2 = 1 := by
  intro fs
  induction fs with
  | nil =>
    intro f hf
    simp at hf
  | cons g fs ih =>
    intro f hf hnd hout hc
    rw [List.map_cons, List.nodup_cons] at hnd
    rw [processFlags_cons]
    show elimCountFor f.code ((processFlag target theme n g).2
      ++ (processFlags target theme n fs).2) = 1
    rw [elimCountFor_append]
    rcases List.mem_cons.mp hf with h | h
    · subst h
      rw [elimCountFor_processFlag_elim target theme n f hout hc,
        elimCount_zero_of_codes target theme n fs f.code ?_]
      intro k hk hkcode
      exact hnd.1 (hkcode ▸ List.mem_map_of_mem Flag.code hk)
    · have hne : g.code ≠ f.code := fun hceq =>
        hnd.1 (hceq ▸ List.mem_map_of_mem Flag.code h)
      rw [elimCountFor_processFlag_ne target theme n g f.code hne,
        ih f h hnd.2 hout hc]

lemma elimCount_zero_of_kept (target : Option String) (theme : VisualTheme) (n : ℕ) :
    ∀ (fs : List Flag) (f : Flag), f ∈ fs → (fs.map Flag.code).Nodup →
      (¬ outOfBounds f ∨ (target = some f.code ∧ 1 < n)) →
      elimCountFor f.code (processFlags target theme n fs).2 = 0 := by
  intro fs
  induction fs with
  | nil =>
    intro f hf
    simp at hf
  | cons g fs ih =>
    intro f hf hnd hkept
    rw [List.map_cons, List.nodup_cons] at hnd
    rw [processFlags_cons]
    show elimCountFor f.code ((processFlag target theme n g).2
      ++ (processFlags target theme n fs).2) = 0
    rw [elimCountFor_append]
    rcases List.mem_cons.mp hf with h | h
    · subst h
      rw [elimCountFor_processFlag_kept target theme n f hkept,
        elimCount_zero_of_codes target theme n fs f.code ?_]
      intro k hk hkcode
      exact hnd.1 (hkcode ▸ List.mem_map_of_mem Flag.code hk)
    · have hne : g.code ≠ f.code := fun hceq =>
        hnd.1 (hceq ▸ List.mem_map_of_mem Flag.code h)
      rw [elimCountFor_processFlag_ne target theme n g f.code hne,
        ih f h hnd.2 hkept]

lemma processFlag_snd_not_final (target : Option String) (theme : VisualTheme) (n : ℕ)
    (f : Flag) : ∀ e ∈ (processFlag target theme n f).2, Event.isFinalization e = false := by
  intro e he
  obtain ⟨heq, _, _⟩ := processFlag_snd_cases target theme n f e he
  subst heq
  rfl

lemma processFlags_filter_final (target : Option String) (theme : VisualTheme) (n : ℕ)
    (fs : List Flag) :
    ((processFlags target theme n fs).2).filter Event.isFinalization = [] := by
  rw [List.filter_eq_nil_iff]
  intro e he
  obtain ⟨f, hf, hfe⟩ := mem_processFlags_snd target theme n fs e he
  simp [processFlag_snd_not_final target theme n f e hfe]

lemma isFinalization_of_isWinnerDetected (e : Event) (h : e.isWinnerDetected = true) :
    e.isFinalization = true := by
  cases e <;> simp_all [Event.isWinnerDetected, Event.isFinalization]

lemma processFlags_filter_winner (target : Option String) (theme : VisualTheme) (n : ℕ)
    (fs : List Flag) :
    ((processFlags target theme n fs).2).filter Event.isWinnerDetected = [] := by
  rw [List.filter_eq_nil_iff]
  intro e he hw
  obtain ⟨f, hf, hfe⟩ := mem_processFlags_snd target theme n fs e he
  have h1 := processFlag_snd_not_final target theme n f e hfe
  have h2 := isFinalization_of_isWinnerDetected e hw
  rw [h2] at h1
  exact absurd h1 (by simp)

lemma runTicks_nil (s : LoopState) : runTicks [] s = (s, []) := rfl

lemma runTicks_cons (cfg : Config) (rest : List Config) (s : LoopState) :
    runTicks (cfg :: rest) s
      = ((runTicks rest (loopTick cfg s).1).1,
         (loopTick cfg s).2 ++ (runTicks rest (loopTick cfg s).1).2) := rfl

lemma loopTick_playing_spec (cfg : Config) (s : LoopState) (hp : cfg.paused = false)
    (hs : cfg.status = GameStatus.PLAYING) (hv : s.victoryFlagId = none) :
    (loopTick cfg s).1.alive
        = (processFlags cfg.targetWinnerId cfg.theme s.alive.length s.alive).1
    ∧ ((loopTick cfg s).2
          = (processFlags cfg.targetWinnerId cfg.theme s.alive.length s.alive).2
       ∨ ∃ w, s.alive = [w] ∧ s.hasEnded = false
           ∧ (loopTick cfg s).2
              = (processFlags cfg.targetWinnerId cfg.theme s.alive.length s.alive).2
                ++ [Event.winnerDetected w.code, Event.gameEndScheduled w.code]) := by
  rw [loopTick]
  rw [if_neg (by simp [hp])]
  try dsimp only
  rw [if_neg (by simp [hs])]
  try dsimp only
  rw [if_neg (by simp [hv])]
  try dsimp only
  by_cases hcond : s.alive.length = 1 ∧ s.hasEnded = false
  · obtain ⟨w, hw⟩ := List.length_eq_one.mp hcond.1
    rw [if_pos hcond, hw]
    try dsimp only
    exact ⟨rfl, Or.inr ⟨w, rfl, hcond.2, rfl⟩⟩
  · rw [if_neg hcond]
    exact ⟨rfl, Or.inl rfl⟩

lemma loopTick_hasEnded_mono (cfg : Config) (s : LoopState) (h : s.hasEnded = true) :
    (loopTick cfg s).1.hasEnded = true := by
  rw [loopTick]
  split
  case isTrue => exact h
  case isFalse =>
    try dsimp only
    split
    case isTrue => exact h
    case isFalse =>
      try dsimp only
      split
      case isTrue => exact h
      case isFalse =>
        try dsimp only
        split
        case isTrue hcond => exact absurd hcond.2 (by simp [h])
        case isFalse => exact h

lemma loopTick_no_final_of_ended (cfg : Config) (s : LoopState) (h : s.hasEnded = true) :
    ((loopTick cfg s).2).filter Event.isFinalization = [] := by
  rw [loopTick]
  split
  case isTrue => rfl
  case isFalse =>
    try dsimp only
    split
    case isTrue => rfl
    case isFalse =>
      try dsimp only
      split
      case isTrue => rfl
      case isFalse =>
        try dsimp only
        split
        case isTrue hcond => exact absurd hcond.2 (by simp [h])
        case isFalse => exact processFlags_filter_final _ _ _ _

lemma loopTick_final_cases (cfg : Config) (s : LoopState) :
    ((loopTick cfg s).1.hasEnded = s.hasEnded
        ∧ ((loopTick cfg s).2).filter Event.isFinalization = [])
    ∨ (∃ w, (loopTick cfg s).1.hasEnded = true
        ∧ ((loopTick cfg s).2).filter Event.isFinalization
            = [Event.winnerDetected w, Event.gameEndScheduled w]) := by
  rw [loopTick]
  split
  case isTrue => exact Or.inl ⟨rfl, rfl⟩
  case isFalse =>
    try dsimp only
    split
    case isTrue => exact Or.inl ⟨rfl, rfl⟩
    case isFalse =>
      try dsimp only
      split
      case isTrue => exact Or.inl ⟨rfl, rfl⟩
      case isFalse =>
        try dsimp only
        split
        case isTrue hcond =>
          split
          · rename_i w hw
            refine Or.inr ⟨w.code, rfl, ?_⟩
            rw [List.filter_append, processFlags_filter_final]
            rfl
          · exact Or.inl ⟨rfl, processFlags_filter_final _ _ _ _⟩
        case isFalse =>
          exact Or.inl ⟨rfl, processFlags_filter_final _ _ _ _⟩

lemma runTicks_no_final_of_ended :
    ∀ (cfgs : List Config) (s : LoopState), s.hasEnded = true →
      ((runTicks cfgs s).2).filter Event.isFinalization = [] := by
  intro cfgs
  induction cfgs with
  | nil =>
    intro s h
    rfl
  | cons cfg rest ih =>
    intro s h
    rw [runTicks_cons]
    show ((loopTick cfg s).2 ++ (runTicks rest (loopTick cfg s).1).2).filter
      Event.isFinalization = []
    rw [List.filter_append, loopTick_no_final_of_ended cfg s h,
      ih _ (loopTick_hasEnded_mono cfg s h)]
    rfl

lemma loopTick_alive_nil (cfg : Config) (s : LoopState) (h : s.alive = []) :
    (loopTick cfg s).1.alive = []
      ∧ ((loopTick cfg s).2).filter Event.isWinnerDetected = [] := by
  rw [loopTick]
  split
  case isTrue => exact ⟨h, rfl⟩
  case isFalse =>
    try dsimp only
    split
    case isTrue => exact ⟨h, rfl⟩
    case isFalse =>
      try dsimp only
      split
      case isTrue => exact ⟨h, rfl⟩
      case isFalse =>
        try dsimp only
        split
        case isTrue hcond =>
          rw [h] at hcond
          simp at hcond
        case isFalse =>
          refine ⟨?_, processFlags_filter_winner _ _ _ _⟩
          show (processFlags cfg.targetWinnerId cfg.theme s.alive.length s.alive).1 = []
          rw [h, processFlags_nil]

lemma runTicks_winner_nil :
    ∀ (cfgs : List Config) (s : LoopState), s.alive = [] →
      ((runTicks cfgs s).2).filter Event.isWinnerDetected = [] := by
  intro cfgs
  induction cfgs with
  | nil =>
    intro s h
    rfl
  | cons cfg rest ih =>
    intro s h
    rw [runTicks_cons]
    show ((loopTick cfg s).2 ++ (runTicks rest (loopTick cfg s).1).2).filter
      Event.isWinnerDetected = []
    rw [List.filter_append, (loopTick_alive_nil cfg s h).2,
      ih _ (loopTick_alive_nil cfg s h).1]
    rfl

lemma CENTER_X_eq : CENTER_X = 400 := by
  rw [CENTER_X, CANVAS_SIZE]
  norm_num

lemma CENTER_Y_eq : CENTER_Y = 460 := by
  rw [CENTER_Y, CANVAS_SIZE]
  norm_num

lemma flagOutA_out : outOfBounds flagOutA :=
  Or.inr (by norm_num [flagOutA])

lemma flagOutB_out : outOfBounds flagOutB :=
  Or.inr (by norm_num [flagOutB])

lemma flagCenterB_dist : distFromCenter flagCenterB = 0 := by
  rw [distFromCenter, CENTER_X_eq, CENTER_Y_eq]
  norm_num [flagCenterB, Real.sqrt_zero]

/-- A token within the ring radius of the center fails both branches of
the threshold test: the radius bound because 160 < 480, and the vertical
bound because its y is at most center y plus the radius, 620 < 950. -/
lemma not_outOfBounds_of_inside (f : Flag) (hin : distFromCenter f ≤ CIRCLE_RADIUS) :
    ¬ outOfBounds f := by
  have hr : CIRCLE_RADIUS = (160 : ℝ) := rfl
  rw [hr] at hin
  rw [outOfBounds]
  push_neg
  constructor
  · linarith
  · have h1 : f.y - CENTER_Y ≤ distFromCenter f := by
      rw [distFromCenter]
      calc f.y - CENTER_Y ≤ |f.y - CENTER_Y| := le_abs_self _
        _ = Real.sqrt ((f.y - CENTER_Y) ^ 2) := (Real.sqrt_sq_eq_abs _).symm
        _ ≤ Real.sqrt ((f.x - CENTER_X) ^ 2 + (f.y - CENTER_Y) ^ 2) := by
            apply Real.sqrt_le_sqrt
            nlinarith [sq_nonneg (f.x - CENTER_X)]
    have hcy : CENTER_Y = 460 := CENTER_Y_eq
    linarith

lemma loopTick_winner_branch (cfg : Config) (s : LoopState) (hp : cfg.paused = false)
    (hs : cfg.status = GameStatus.PLAYING) (hv : s.victoryFlagId = none)
    (w : Flag) (hw : s.alive = [w]) (hend : s.hasEnded = false) :
    (loopTick cfg s).1.hostTimers = s.hostTimers ++ [HostTimer.gameEndTimer w.code]
    ∧ (loopTick cfg s).1.hasEnded = true
    ∧ (loopTick cfg s).1.victoryFlagId = some w.id
    ∧ (loopTick cfg s).2
        = (processFlags cfg.targetWinnerId cfg.theme s.alive.length s.alive).2
          ++ [Event.winnerDetected w.code, Event.gameEndScheduled w.code] := by
  rw [loopTick]
  rw [if_neg (by simp [hp])]
  try dsimp only
  rw [if_neg (by simp [hs])]
  try dsimp only
  rw [if_neg (by simp [hv])]
  try dsimp only
  have hcond : s.alive.length = 1 ∧ s.hasEnded = false := ⟨by rw [hw]; rfl, hend⟩
  rw [if_pos hcond, hw]
  try dsimp only
  exact ⟨rfl, rfl, rfl, rfl⟩

/-- C2: winner finalization happens at most once along any run of ticks
started with the has-ended flag unset: in the whole event trace the
finalization events are either absent or exactly the pair WinnerDetected
followed by the scheduled GameEnded, both for the same entrant.  The
has-ended flag makes every later one-token observation a no-op. -/
theorem winner_finalized_once (cfgs : List Config) (s : LoopState) (h : s.hasEnded = false) :
    ((runTicks cfgs s).2).filter Event.isFinalization = []
    ∨ ∃ w, ((runTicks cfgs s).2).filter Event.isFinalization
        = [Event.winnerDetected w, Event.gameEndScheduled w] := by
  induction cfgs generalizing s with
  | nil => exact Or.inl rfl
  | cons cfg rest ih =>
    rw [runTicks_cons]
    show ((loopTick cfg s).2 ++ (runTicks rest (loopTick cfg s).1).2).filter
      Event.isFinalization = [] ∨ _
    rw [List.filter_append]
    rcases loopTick_final_cases cfg s with ⟨hend, hnil⟩ | ⟨w, hend, hfil⟩
    · rw [hnil, List.nil_append]
      exact ih (loopTick cfg s).1 (by rw [hend, h])
    · rw [hfil, runTicks_no_final_of_ended rest _ hend]
      exact Or.inr ⟨w, by simp⟩

/-- Witness for C2: one playing tick on a single centered token emits
exactly the WinnerDetected and scheduled GameEnded pair. -/
theorem winner_finalized_once_witness :
    stSolo.hasEnded = false
    ∧ (((runTicks [cfgPlaying] stSolo).2).filter Event.isFinalization = []
       ∨ ∃ w, ((runTicks [cfgPlaying] stSolo).2).filter Event.isFinalization
           = [Event.winnerDetected w, Event.gameEndScheduled w]) :=
  ⟨rfl, winner_finalized_once [cfgPlaying] stSolo rfl⟩

/-- C9: the winner check compares one against the snapshot of tokens
taken at the start of the tick, before removals: a tick entered with two
or more live tokens never emits WinnerDetected, so detection happens at
the earliest on the tick after the field shrinks to one; and if the last
two tokens both cross the threshold in one tick (no rig configured),
both are eliminated and no WinnerDetected is ever emitted afterwards. -/
theorem winner_check_uses_snapshot (cfg : Config) (s : LoopState)
    (hp : cfg.paused = false) (hs : cfg.status = GameStatus.PLAYING)
    (hv : s.victoryFlagId = none) :
    (2 ≤ s.alive.length →
      ((loopTick cfg s).2).filter Event.isWinnerDetected = [])
    ∧ (∀ f g, s.alive = [f, g] → outOfBounds f → outOfBounds g →
        cfg.targetWinnerId = none →
        (loopTick cfg s).1.alive = []
        ∧ ∀ cfgs, ((runTicks cfgs (loopTick cfg s).1).2).filter
            Event.isWinnerDetected = []) := by
  obtain ⟨ha, he⟩ := loopTick_playing_spec cfg s hp hs hv
  constructor
  · intro h2
    rcases he with he | ⟨w, hw, _, _⟩
    · rw [he]
      exact processFlags_filter_winner _ _ _ _
    · rw [hw] at h2
      simp at h2
  · intro f g hfg hof hog htar
    have halive : (loopTick cfg s).1.alive = [] := by
      rw [ha, hfg]
      rw [processFlags_cons, processFlags_cons, processFlags_nil]
      rw [processFlag_elim _ _ _ f hof (by rw [htar]; simp),
        processFlag_elim _ _ _ g hog (by rw [htar]; simp)]
    exact ⟨halive, fun cfgs => runTicks_winner_nil cfgs _ halive⟩

/-- Witness for C9: both tokens of a two-token field past the threshold
are removed in one tick and a further tick emits no WinnerDetected. -/
theorem winner_check_uses_snapshot_witness :
    outOfBounds flagOutA ∧ outOfBounds flagOutB
    ∧ (loopTick cfgPlaying stTwoOut).1.alive = []
    ∧ ((runTicks [cfgPlaying] (loopTick cfgPlaying stTwoOut).1).2).filter
        Event.isWinnerDetected = [] :=
  have h := (winner_check_uses_snapshot cfgPlaying stTwoOut rfl rfl rfl).2
    flagOutA flagOutB rfl flagOutA_out flagOutB_out rfl
  ⟨flagOutA_out, flagOutB_out, h.1, h.2 [cfgPlaying]⟩

lemma processFlags_singleton_elim (target : Option String) (theme : VisualTheme)
    (n : ℕ) (f : Flag) (hout : outOfBounds f)
    (hc : ¬ (target = some f.code ∧ 1 < n)) :
    processFlags target theme n [f]
      = ([], [Event.eliminated f.code f.x f.y (eliminationColor theme)]) := by
  rw [processFlags_cons, processFlag_elim target theme n f hout hc, processFlags_nil]
  rfl

/-- C1: while more than one token is alive at the tick snapshot, a token
whose entrant matches the configured target winner is never eliminated
when it crosses the threshold: no Eliminated event carries its entrant,
and it stays in the world teleported to the arena center with zero
velocity (rescueFlag).  When it is the only token of the snapshot the
protection clause fails and the normal threshold test eliminates it. -/
theorem target_winner_protected (cfg : Config) (s : LoopState)
    (hp : cfg.paused = false) (hs : cfg.status = GameStatus.PLAYING)
    (hv : s.victoryFlagId = none) (f : Flag) (hf : f ∈ s.alive)
    (hout : outOfBounds f) (ht : cfg.targetWinnerId = some f.code) :
    (1 < s.alive.length →
      (∀ x y c, Event.eliminated f.code x y c ∉ (loopTick cfg s).2)
      ∧ rescueFlag f ∈ (loopTick cfg s).1.alive)
    ∧ (s.alive = [f] →
      Event.eliminated f.code f.x f.y (eliminationColor cfg.theme) ∈ (loopTick cfg s).2
      ∧ (loopTick cfg s).1.alive = []) := by
  obtain ⟨ha, he⟩ := loopTick_playing_spec cfg s hp hs hv
  constructor
  · intro hn
    constructor
    · intro x y c hmem
      have hmem2 : Event.eliminated f.code x y c
          ∈ (processFlags cfg.targetWinnerId cfg.theme s.alive.length s.alive).2 := by
        rcases he with he | ⟨w, _, _, he⟩
        · rw [he] at hmem
          exact hmem
        · rw [he] at hmem
          rcases List.mem_append.mp hmem with h | h
          · exact h
          · simp at h
      obtain ⟨k, hk, hke⟩ := mem_processFlags_snd _ _ _ s.alive _ hmem2
      obtain ⟨heq, hkout, hkc⟩ := processFlag_snd_cases _ _ _ k _ hke
      have hcode : f.code = k.code := by
        injection heq
      exact hkc ⟨by rw [ht, hcode], hn⟩
    · rw [ha]
      exact processFlags_fst_mem _ _ _ s.alive f (rescueFlag f) hf
        (by rw [processFlag_rescue _ _ _ f hout ht hn])
  · intro hone
    have hc : ¬ (cfg.targetWinnerId = some f.code ∧ 1 < s.alive.length) := by
      rw [hone]
      simp
    constructor
    · have hev : Event.eliminated f.code f.x f.y (eliminationColor cfg.theme)
          ∈ (processFlag cfg.targetWinnerId cfg.theme s.alive.length f).2 := by
        rw [processFlag_elim _ _ _ f hout hc]
        exact List.mem_singleton.mpr rfl
      have hmem := processFlags_snd_mem _ _ _ s.alive f _ hf hev
      rcases he with he | ⟨w, _, _, he⟩
      · rw [he]
        exact hmem
      · rw [he]
        exact List.mem_append_left _ hmem
    · rw [ha, hone]
      rw [processFlags_singleton_elim _ _ _ f hout (by rw [← hone]; exact hc)]

/-- Witness for C1: with two tokens alive and entrant AA rigged, the
out-of-bounds AA token is rescued to the center instead of eliminated. -/
theorem target_winner_protected_witness :
    outOfBounds flagOutA
    ∧ 1 < stPair.alive.length
    ∧ ((∀ x y c, Event.eliminated flagOutA.code x y c
          ∉ (loopTick cfgPlayingTargetAA stPair).2)
       ∧ rescueFlag flagOutA ∈ (loopTick cfgPlayingTargetAA stPair).1.alive) :=
  ⟨flagOutA_out, by decide,
   (target_winner_protected cfgPlayingTargetAA stPair rfl rfl rfl flagOutA
     (List.mem_cons_self _ _) flagOutA_out rfl).1 (by decide)⟩

/-- C3: for a live non-protected token in a playing unpaused tick with
no winner latched, elimination happens exactly when the threshold test
fires: if it is out of bounds, exactly one Eliminated event carrying its
entrant, last position and the theme color hint is emitted and no
survivor carries its entrant; otherwise it stays in the world unchanged
and no Eliminated event carries its entrant. -/
theorem elimination_iff_threshold (cfg : Config) (s : LoopState)
    (hp : cfg.paused = false) (hs : cfg.status = GameStatus.PLAYING)
    (hv : s.victoryFlagId = none) (f : Flag) (hf : f ∈ s.alive)
    (ht : cfg.targetWinnerId ≠ some f.code)
    (hnd : (s.alive.map Flag.code).Nodup) :
    (outOfBounds f →
      Event.eliminated f.code f.x f.y (eliminationColor cfg.theme) ∈ (loopTick cfg s).2
      ∧ elimCountFor f.code (loopTick cfg s).2 = 1
      ∧ ∀ g ∈ (loopTick cfg s).1.alive, g.code ≠ f.code)
    ∧ (¬ outOfBounds f →
      f ∈ (loopTick cfg s).1.alive
      ∧ elimCountFor f.code (loopTick cfg s).2 = 0) := by
  obtain ⟨ha, he⟩ := loopTick_playing_spec cfg s hp hs hv
  have hcnt : ∀ code, elimCountFor code (loopTick cfg s).2
      = elimCountFor code
          (processFlags cfg.targetWinnerId cfg.theme s.alive.length s.alive).2 := by
    intro code
    rcases he with he | ⟨w, _, _, he⟩
    · rw [he]
    · rw [he, elimCountFor_append]
      norm_num [elimCountFor, Event.elimCode]
  have hc : ¬ (cfg.targetWinnerId = some f.code ∧ 1 < s.alive.length) :=
    fun hx => ht hx.1
  constructor
  · intro hout
    refine ⟨?_, ?_, ?_⟩
    · have hev : Event.eliminated f.code f.x f.y (eliminationColor cfg.theme)
          ∈ (processFlag cfg.targetWinnerId cfg.theme s.alive.length f).2 := by
        rw [processFlag_elim _ _ _ f hout hc]
        exact List.mem_singleton.mpr rfl
      have hmem := processFlags_snd_mem _ _ _ s.alive f _ hf hev
      rcases he with he | ⟨w, _, _, he⟩
      · rw [he]
        exact hmem
      · rw [he]
        exact List.mem_append_left _ hmem
    · rw [hcnt]
      exact elimCount_one_of_elim _ _ _ s.alive f hf hnd hout hc
    · intro g hg hgc
      rw [ha] at hg
      obtain ⟨k, hk, hks⟩ := mem_processFlags_fst _ _ _ s.alive g hg
      have hkcode : k.code = f.code := by
        rcases processFlag_fst_cases _ _ _ k g hks with ⟨_, hgk⟩ | ⟨_, _, _, hgk⟩
        · rw [← hgc, hgk]
        · rw [← hgc, hgk, rescueFlag_code]
      have hkf : k = f := List.inj_on_of_nodup_map hnd hk hf hkcode
      subst hkf
      rcases processFlag_fst_cases _ _ _ k g hks with ⟨hkno, _⟩ | ⟨_, hktar, _, _⟩
      · exact hkno hout
      · exact ht hktar
  · intro hno
    constructor
    · rw [ha]
      exact processFlags_fst_mem _ _ _ s.alive f f hf
        (by rw [processFlag_not_out _ _ _ f hno])
    · rw [hcnt]
      exact elimCount_zero_of_kept _ _ _ s.alive f hf hnd (Or.inl hno)

/-- Witness for C3: with no rig configured, the out-of-bounds token AA
is eliminated with exactly one event and the centered token survives. -/
theorem elimination_iff_threshold_witness :
    outOfBounds flagOutA
    ∧ (Event.eliminated flagOutA.code flagOutA.x flagOutA.y
          (eliminationColor cfgPlaying.theme) ∈ (loopTick cfgPlaying stPair).2
       ∧ elimCountFor flagOutA.code (loopTick cfgPlaying stPair).2 = 1
       ∧ ∀ g ∈ (loopTick cfgPlaying stPair).1.alive, g.code ≠ flagOutA.code) :=
  ⟨flagOutA_out,
   (elimination_iff_threshold cfgPlaying stPair rfl rfl rfl flagOutA
     (List.mem_cons_self _ _) (by decide) (by decide)).1 flagOutA_out⟩

/-- C10: a token within the ring radius of the arena center fails both
threshold branches (160 < 480 and 460 + 160 = 620 < 950), so the tick
neither eliminates nor rescues it: the very same body state stays in the
world and no Eliminated event carries its entrant. -/
theorem inside_ring_untouched (cfg : Config) (s : LoopState)
    (hp : cfg.paused = false) (hs : cfg.status = GameStatus.PLAYING)
    (hv : s.victoryFlagId = none) (f : Flag) (hf : f ∈ s.alive)
    (hnd : (s.alive.map Flag.code).Nodup)
    (hin : distFromCenter f ≤ CIRCLE_RADIUS) :
    f ∈ (loopTick cfg s).1.alive
      ∧ elimCountFor f.code (loopTick cfg s).2 = 0 := by
  have hno := not_outOfBounds_of_inside f hin
  obtain ⟨ha, he⟩ := loopTick_playing_spec cfg s hp hs hv
  constructor
  · rw [ha]
    exact processFlags_fst_mem _ _ _ s.alive f f hf
      (by rw [processFlag_not_out _ _ _ f hno])
  · have hzero := elimCount_zero_of_kept cfg.targetWinnerId cfg.theme
      s.alive.length s.alive f hf hnd (Or.inl hno)
    rcases he with he | ⟨w, _, _, he⟩
    · rw [he]
      exact hzero
    · rw [he, elimCountFor_append, hzero]
      rfl

/-- Witness for C10: the token resting exactly at the arena center is
untouched by a playing tick that eliminates its out-of-bounds peer. -/
theorem inside_ring_untouched_witness :
    distFromCenter flagCenterB ≤ CIRCLE_RADIUS
    ∧ flagCenterB ∈ (loopTick cfgPlaying stPair).1.alive
    ∧ elimCountFor flagCenterB.code (loopTick cfgPlaying stPair).2 = 0 :=
  have hin : distFromCenter flagCenterB ≤ CIRCLE_RADIUS := by
    rw [flagCenterB_dist, CIRCLE_RADIUS]
    norm_num
  have h := inside_ring_untouched cfgPlaying stPair rfl rfl rfl flagCenterB
    (List.mem_cons_of_mem _ (List.mem_cons_self _ _)) (by decide) hin
  ⟨hin, h.1, h.2⟩

/-- C6 as the code behaves: on a fresh unpaused mount the immediate-tick
effect runs during the first commit while the rendered countdown cell is
still null (setCountdown(3) from the setup effect is not yet visible)
and never re-runs, so no tick event for 3 is emitted; the four timer
expiries then emit 2, 1, 0 and, on the expiry that switches the status
to PLAYING, a second 0.  The full emitted tick sequence of a match is
therefore 2, 1, 0, 0 rather than 3, 2, 1, 0. -/
lemma countdownSteps_none (paused : Bool) (st : GameStatus) :
    ∀ n, countdownSteps paused n { countdown := none, status := st }
      = ({ countdown := none, status := st }, []) := by
  intro n
  induction n with
  | zero => rfl
  | succ n ih =>
    have hstep : countdownStep paused { countdown := none, status := st }
        = ({ countdown := none, status := st }, []) := by
      rw [countdownStep, if_pos (Or.inr (Or.inl rfl))]
    show ((countdownSteps paused n
        (countdownStep paused { countdown := none, status := st }).1).1,
      (countdownStep paused { countdown := none, status := st }).2
        ++ (countdownSteps paused n
            (countdownStep paused { countdown := none, status := st }).1).2) = _
    rw [hstep, ih]
    rfl

theorem countdown_trace_of_code :
    (countdownMount GameStatus.STARTING).2 = []
    ∧ (countdownRun 4).2
        = [Event.countdownTick 2, Event.countdownTick 1, Event.countdownTick 0,
           Event.statusChange GameStatus.PLAYING, Event.countdownTick 0]
    ∧ (countdownRun 4).1 = { countdown := none, status := GameStatus.PLAYING }
    ∧ ∀ n, (countdownSteps false n (countdownRun 4).1).2 = [] := by
  refine ⟨rfl, rfl, rfl, ?_⟩
  intro n
  rw [show (countdownRun 4).1 = { countdown := none, status := GameStatus.PLAYING } from rfl,
    countdownSteps_none]

/-- C8 as the code behaves: detecting a winner schedules the delayed
GameEnded timeout, but its handle is discarded (Game.tsx line 427) and
no cleanup clears it, so it survives the unmount caused by a restart:
the stale callback still delivers GameEnded for the old match. -/
theorem game_end_timer_survives_restart :
    (loopTick cfgPlaying stSolo).1.hostTimers = [HostTimer.gameEndTimer "WW"]
    ∧ teardownTimers (loopTick cfgPlaying stSolo).1.hostTimers
        = [HostTimer.gameEndTimer "WW"]
    ∧ Event.winnerDetected "WW" ∈ (loopTick cfgPlaying stSolo).2 := by
  have h := loopTick_winner_branch cfgPlaying stSolo rfl rfl rfl flagCenterW rfl rfl
  have h1 : (loopTick cfgPlaying stSolo).1.hostTimers = [HostTimer.gameEndTimer "WW"] := by
    rw [h.1]
    rfl
  refine ⟨h1, by rw [h1]; rfl, ?_⟩
  rw [h.2.2.2]
  exact List.mem_append_right _ (List.mem_cons_self _ _)

end FlagBattle
